import Mathlib

/-!
Verification of the paddock ETL core (spatial identity resolution and
attribute aggregation) against its natural-language specification.

The embedding translates the Python sources:
  * `data_processing.py` — the aggregation rule engine
    (`DataProcessor._apply_aggregation_rule`), per-namespace combination
    (`DataProcessor.combine_namespace_data`) and the normalizer
    (`DataProcessor.normalize_farm_data`);
  * `spatial_matching.py` — reference-year selection, the reference paddock
    set, best spatial match and the paddock mapping
    (`SpatialMatcher.determine_reference_year`,
     `SpatialMatcher.create_reference_paddocks`,
     `SpatialMatcher.find_best_spatial_match`,
     `SpatialMatcher.create_paddock_mapping`);
  * `config.py` — `ETLConfig`.

Modelling conventions:
  * Scalar payload values (the spec's "numeric, string, or null") are the
    inductive type `Value`; Python floats are modelled as rationals, so the
    claims about which entries are selected, summed or divided are exact.
  * Python dicts are association lists in insertion order; dict assignment
    is `updateAssoc` (update in place if present, append otherwise) and
    `dict.get` is `alookup`.  Python `set`/`unique`/`Counter` key order is
    modelled as first-occurrence order (`pyDedupBy`), which is the
    documented insertion order for `dict`/`Counter`; for `set` the order is
    unspecified in Python, and no claim below depends on it.
  * Geometries are abstract: a type `G` together with `GeomOps`
    (intersection, area, emptiness), mirroring the shapely primitives the
    matcher calls.  All spatial theorems are proved for every such `G`.
  * pandas `groupby`/`pivot_table` sort group keys; the embedding groups in
    first-occurrence order.  Every claim below is stated at the level of
    key sets and per-key cells, which is unaffected by key order.
-/

namespace PaddockETL

/-- A scalar payload value: numeric (Python `int`/`float`, modelled as `ℚ`),
string, or null (`None`). -/
inductive Value where
  | vNum (q : ℚ)
  | vStr (s : String)
  | vNull
deriving DecidableEq

/-- `isinstance(v, (int, float))` followed by `float(v)`: numeric values
coerce, everything else is rejected. -/
def toNum : Value → Option ℚ
  | Value.vNum q => some q
  | _ => none

/-- `[v for v in values if v is not None]` — drop null entries. -/
def cleanValues (values : List Value) : List Value :=
  values.filter (fun v => match v with | Value.vNull => false | _ => true)

/-- `sum(float(v) for v in l if isinstance(v, (int, float)))`. -/
def sumNumeric (l : List Value) : ℚ :=
  (l.filterMap toNum).sum

/-- First-occurrence deduplication by a key, in encounter order.  Models the
insertion order of Python dict keys (`Counter`, `drop_duplicates`,
`Series.unique`). -/
def pyDedupBy {α κ : Type} [DecidableEq κ] (key : α → κ) : List α → List α
  | [] => []
  | a :: as => a :: (pyDedupBy key as).filter (fun b => decide (key b ≠ key a))

/-- Number of occurrences of `v` in `l`. -/
def countVal (v : Value) (l : List Value) : Nat :=
  (l.filter (fun w => decide (w = v))).length

/-- Index of the first occurrence of `v` in `l` (`l.length` if absent). -/
def firstIdx (v : Value) (l : List Value) : Nat :=
  l.findIdx (fun w => decide (w = v))

/-- `collections.Counter(l)`: keys in first-encounter order, each with its
multiplicity in `l`. -/
def pyCounter (l : List Value) : List (Value × Nat) :=
  (pyDedupBy (fun x => x) l).map (fun v => (v, countVal v l))

/-- First entry with the maximal count, ties kept by the earlier entry.
Models `Counter.most_common(1)`, which is `heapq.nlargest` on the counter
items — a stable selection, so the first inserted key wins ties. -/
def firstMode : List (Value × Nat) → Option (Value × Nat)
  | [] => none
  | p :: ps =>
    match firstMode ps with
    | none => some p
    | some q => if q.2 ≤ p.2 then some p else some q

/-- `Counter(l).most_common(1)[0][0]`. -/
def mostCommon1 (l : List Value) : Option Value :=
  (firstMode (pyCounter l)).map Prod.fst

/-- `dict.get` on an association list (first binding wins, as in a
well-formed dict). -/
def alookup {κ β : Type} [DecidableEq κ] : List (κ × β) → κ → Option β
  | [], _ => none
  | p :: m, k => if p.1 = k then some p.2 else alookup m k

/-- Python dict assignment `m[k] = v`: replace the binding in place if the
key is present, append otherwise. -/
def updateAssoc {κ β : Type} [DecidableEq κ] : List (κ × β) → κ → β → List (κ × β)
  | [], k, v => [(k, v)]
  | p :: m, k, v => if p.1 = k then (k, v) :: m else p :: updateAssoc m k v

/-- `DataProcessor._apply_aggregation_rule` (`data_processing.py`, lines
50-90).  Null entries are dropped first; an empty remainder yields null for
every rule; then the rule dispatch.  The Python `try`/`except` around the
dispatch cannot fire in this model: every branch below is total on scalar
`Value`s (`float()` on an `int`/`float` and `Counter` on hashable scalars do
not raise), so the `except` fallback coincides with the unknown-rule
fallback `clean_values[0]`. -/
def applyAggregationRule (values : List Value) (rule : String) (paddock_count : Nat) :
    Option Value :=
  let clean := cleanValues values
  if clean = [] then none
  else if rule = "sum" then
    some (Value.vNum (sumNumeric clean))
  else if rule = "mean" then
    let nums := clean.filterMap toNum
    if nums = [] then none
    else some (Value.vNum (nums.sum / (nums.length : ℚ)))
  else if rule = "divide_by_paddock_count" then
    let total := sumNumeric clean
    if 0 < paddock_count then some (Value.vNum (total / (paddock_count : ℚ)))
    else some (Value.vNum total)
  else if rule = "first" then
    clean.head?
  else if rule = "majority" then
    mostCommon1 clean
  else
    clean.head?

/-! ### Aggregation rule engine: claims C7, C3, C8 -/

/-- C7: for every list of values, applying the aggregation engine with rule
`"sum"` ignores non-numeric entries and returns the arithmetic sum of the
numeric subset of the surviving (non-null) values.  (When no value survives
the engine's empty-input guard returns null, as the spec states for every
rule.) -/
theorem sum_rule_numeric_subset (values : List Value) (n : Nat) :
    applyAggregationRule values "sum" n =
      if cleanValues values = [] then none
      else some (Value.vNum (sumNumeric (cleanValues values))) := by
  by_cases h : cleanValues values = [] <;> simp [applyAggregationRule, h]

/-- C3 counterexample: the engine has no rule literally named
`"divide_by_unit_count"` (the source string is `"divide_by_paddock_count"`),
so applying the spec's rule name hits the unknown-rule fallback and returns
the first surviving value `2` — not the count-normalized sum `(2+4)/2 = 3`
the claim requires. -/
theorem divide_by_unit_count_name_counterexample :
    applyAggregationRule [Value.vNum 2, Value.vNum 4] "divide_by_unit_count" 2 =
      some (Value.vNum 2) ∧
    sumNumeric (cleanValues [Value.vNum 2, Value.vNum 4]) / (2 : ℚ) = 3 ∧
    (2 : ℚ) ≠ 3 := by
  refine ⟨by decide, ?_, by norm_num⟩
  norm_num [sumNumeric, cleanValues, toNum, List.filterMap_cons]

/-- C3 (amended): the count-normalizing rule is named
`"divide_by_paddock_count"` in the code (the spec calls it
`divide_by_unit_count`).  For it, the engine returns the sum of the numeric
entries divided by `n` when `n > 0` and the plain sum when `n = 0`; with no
surviving value it returns null per the engine's empty guard. -/
theorem divide_by_paddock_count_rule (values : List Value) (n : Nat) :
    applyAggregationRule values "divide_by_paddock_count" n =
      if cleanValues values = [] then none
      else some (Value.vNum
        (if 0 < n then sumNumeric (cleanValues values) / (n : ℚ)
         else sumNumeric (cleanValues values))) := by
  have h1 : ("divide_by_paddock_count" : String) ≠ "sum" := by decide
  have h2 : ("divide_by_paddock_count" : String) ≠ "mean" := by decide
  by_cases h : cleanValues values = [] <;>
    by_cases hn : 0 < n <;>
      simp [applyAggregationRule, h, h1, h2, hn]

/-- C8: the aggregation engine is total.  After discarding nulls, an empty
remainder yields null for every rule (in particular the empty input list),
and an unknown rule name returns the first surviving raw value (null if none
survive).  In this embedding every rule branch is a total function on scalar
values, so the Python `except` fallback — which returns the same
`clean_values[0]` — is unreachable, and the engine always produces a
scalar-or-null result. -/
theorem aggregation_engine_total (values : List Value) (rule : String) (n : Nat) :
    (cleanValues values = [] → applyAggregationRule values rule n = none) ∧
    (values = [] → applyAggregationRule values rule n = none) ∧
    (rule ∉ (["sum", "mean", "divide_by_paddock_count", "first", "majority"] :
        List String) →
      applyAggregationRule values rule n = (cleanValues values).head?) := by
  refine ⟨fun h => by simp [applyAggregationRule, h], ?_, ?_⟩
  · intro h
    subst h
    simp [applyAggregationRule, cleanValues]
  · intro h
    simp only [List.mem_cons, List.not_mem_nil, or_false, not_or] at h
    obtain ⟨h1, h2, h3, h4, h5⟩ := h
    by_cases hc : cleanValues values = [] <;>
      simp [applyAggregationRule, hc, h1, h2, h3, h4, h5]

/-- Witness for C8 at concrete inputs: an unknown rule (`"median"`) returns
the first surviving value, and the empty input yields null. -/
theorem aggregation_engine_total_witness :
    applyAggregationRule [Value.vStr "x", Value.vNull] "median" 1 =
      some (Value.vStr "x") ∧
    applyAggregationRule [] "median" 1 = none := by
  constructor
  · have h := (aggregation_engine_total [Value.vStr "x", Value.vNull] "median" 1).2.2
      (by decide)
    simpa [cleanValues] using h
  · exact (aggregation_engine_total [] "median" 1).2.1 rfl

/-! ### The majority rule: claim C6 -/

theorem mem_pyDedupBy_self {α : Type} [DecidableEq α] (l : List α) (b : α) :
    b ∈ pyDedupBy (fun x => x) l ↔ b ∈ l := by
  induction l with
  | nil => simp [pyDedupBy]
  | cons a t ih =>
    simp only [pyDedupBy, List.mem_cons]
    constructor
    · rintro (rfl | hb)
      · exact Or.inl rfl
      · exact Or.inr (ih.mp (List.mem_of_mem_filter hb))
    · rintro (rfl | hb)
      · exact Or.inl rfl
      · by_cases hba : b = a
        · exact Or.inl hba
        · exact Or.inr (List.mem_filter.mpr ⟨ih.mpr hb, by simpa using hba⟩)

theorem filter_eq_append_cons {α : Type} (p : α → Bool) :
    ∀ (l d₁ d₂ : List α) (x : α), l.filter p = d₁ ++ x :: d₂ →
      ∃ e₁ e₂, l = e₁ ++ x :: e₂ ∧ e₁.filter p = d₁ ∧ e₂.filter p = d₂ := by
  intro l
  induction l with
  | nil => intro d₁ d₂ x h; simp at h
  | cons a t ih =>
    intro d₁ d₂ x h
    by_cases hpa : p a
    · rw [List.filter_cons_of_pos hpa] at h
      cases d₁ with
      | nil =>
        simp only [List.nil_append, List.cons.injEq] at h
        exact ⟨[], t, by simp [h.1], rfl, h.2⟩
      | cons b d₁' =>
        simp only [List.cons_append, List.cons.injEq] at h
        obtain ⟨rfl, h2⟩ := h
        obtain ⟨e₁, e₂, rfl, he1, he2⟩ := ih d₁' d₂ x h2
        exact ⟨a :: e₁, e₂, rfl, by simp [List.filter_cons_of_pos hpa, he1], he2⟩
    · rw [List.filter_cons_of_neg hpa] at h
      obtain ⟨e₁, e₂, rfl, he1, he2⟩ := ih d₁ d₂ x h
      exact ⟨a :: e₁, e₂, rfl,
        by simp [List.filter_cons_of_neg hpa, he1], he2⟩

theorem map_eq_append_cons {α β : Type} (f : α → β) :
    ∀ (l : List α) (d₁ d₂ : List β) (y : β), l.map f = d₁ ++ y :: d₂ →
      ∃ e₁ x e₂, l = e₁ ++ x :: e₂ ∧ f x = y ∧ e₁.map f = d₁ ∧ e₂.map f = d₂ := by
  intro l
  induction l with
  | nil => intro d₁ d₂ y h; simp at h
  | cons a t ih =>
    intro d₁ d₂ y h
    cases d₁ with
    | nil =>
      simp only [List.map_cons, List.nil_append, List.cons.injEq] at h
      exact ⟨[], a, t, rfl, h.1, rfl, h.2⟩
    | cons b d₁' =>
      simp only [List.map_cons, List.cons_append, List.cons.injEq] at h
      obtain ⟨rfl, h2⟩ := h
      obtain ⟨e₁, x, e₂, rfl, hfx, he1, he2⟩ := ih d₁' d₂ y h2
      exact ⟨a :: e₁, x, e₂, rfl, hfx, by simp [he1], he2⟩

theorem firstIdx_cons_self (v : Value) (t : List Value) :
    firstIdx v (v :: t) = 0 := by
  simp [firstIdx, List.findIdx_cons]

theorem firstIdx_cons_ne (v a : Value) (t : List Value) (h : v ≠ a) :
    firstIdx v (a :: t) = firstIdx v t + 1 := by
  have : (decide (a = v)) = false := by simp [Ne.symm h]
  simp [firstIdx, List.findIdx_cons, this]

/-- In the first-occurrence deduplication of `l`, a value `v` listed before a
value `w` first occurs in `l` no later than `w` does. -/
theorem pyDedup_order :
    ∀ (l d₁ d₂ : List Value) (v : Value),
      pyDedupBy (fun x => x) l = d₁ ++ v :: d₂ →
      ∀ w ∈ d₂, firstIdx v l ≤ firstIdx w l := by
  intro l
  induction l with
  | nil => intro d₁ d₂ v h; simp [pyDedupBy] at h
  | cons a t ih =>
    intro d₁ d₂ v h w hw
    simp only [pyDedupBy] at h
    cases d₁ with
    | nil =>
      simp only [List.nil_append, List.cons.injEq] at h
      obtain ⟨rfl, h2⟩ := h
      rw [firstIdx_cons_self]
      exact Nat.zero_le _
    | cons b d₁' =>
      simp only [List.cons_append, List.cons.injEq] at h
      obtain ⟨rfl, h2⟩ := h
      obtain ⟨e₁, e₂, hsplit, he1, he2⟩ :=
        filter_eq_append_cons _ _ _ _ _ h2
      have hv_filter : v ∈ List.filter (fun b => decide (b ≠ a))
          (pyDedupBy (fun x => x) t) := by
        rw [h2]; exact List.mem_append_right _ (List.mem_cons_self _ _)
      have hv_ne : v ≠ a := by
        simpa using (List.mem_filter.mp hv_filter).2
      rw [← he2] at hw
      have hw_mem_e2 : w ∈ e₂ := List.mem_of_mem_filter hw
      have hw_ne : w ≠ a := by
        simpa using (List.mem_filter.mp hw).2
      have hstep := ih e₁ e₂ v hsplit w hw_mem_e2
      rw [firstIdx_cons_ne v a t hv_ne, firstIdx_cons_ne w a t hw_ne]
      exact Nat.succ_le_succ hstep

theorem firstMode_eq_none (ps : List (Value × Nat)) :
    firstMode ps = none ↔ ps = [] := by
  cases ps with
  | nil => simp [firstMode]
  | cons p t =>
    simp only [firstMode]
    constructor
    · intro h
      exfalso
      cases hft : firstMode t with
      | none => simp only [hft] at h; exact Option.noConfusion h
      | some q => simp only [hft] at h; split at h <;> simp_all
    · intro h; simp at h

/-- The entry returned by `firstMode` is in the list, has maximal count, and
everything strictly before it has a strictly smaller count. -/
theorem firstMode_some :
    ∀ (ps : List (Value × Nat)) (p : Value × Nat), firstMode ps = some p →
      (∃ l₁ l₂, ps = l₁ ++ p :: l₂ ∧ ∀ q ∈ l₁, q.2 < p.2) ∧
      (∀ q ∈ ps, q.2 ≤ p.2) := by
  intro ps
  induction ps with
  | nil => intro p h; simp [firstMode] at h
  | cons x t ih =>
    intro p h
    simp only [firstMode] at h
    cases hft : firstMode t with
    | none =>
      simp only [hft] at h
      have ht : t = [] := (firstMode_eq_none t).mp hft
      subst ht
      simp only [Option.some.injEq] at h
      subst h
      exact ⟨⟨[], [], rfl, by simp⟩, by simp⟩
    | some q =>
      simp only [hft] at h
      obtain ⟨⟨l₁, l₂, hsplit, hlt⟩, hmax⟩ := ih q hft
      by_cases hle : q.2 ≤ x.2
      · rw [if_pos hle] at h
        simp only [Option.some.injEq] at h
        subst h
        refine ⟨⟨[], t, rfl, by simp⟩, ?_⟩
        intro r hr
        rcases List.mem_cons.mp hr with rfl | hrt
        · exact le_refl _
        · exact le_trans (hmax r hrt) hle
      · rw [if_neg hle] at h
        simp only [Option.some.injEq] at h
        subst h
        push_neg at hle
        refine ⟨⟨x :: l₁, l₂, by rw [hsplit]; rfl, ?_⟩, ?_⟩
        · intro r hr
          rcases List.mem_cons.mp hr with rfl | hrl
          · exact hle
          · exact hlt r hrl
        · intro r hr
          rcases List.mem_cons.mp hr with rfl | hrt
          · exact le_of_lt hle
          · exact hmax r hrt

theorem pyCounter_mem (l : List Value) (w : Value) (hw : w ∈ l) :
    (w, countVal w l) ∈ pyCounter l := by
  exact List.mem_map_of_mem _ ((mem_pyDedupBy_self l w).mpr hw)

theorem pyCounter_shape (l : List Value) (q : Value × Nat) (hq : q ∈ pyCounter l) :
    q.1 ∈ l ∧ q.2 = countVal q.1 l := by
  obtain ⟨v, hv, hvq⟩ := List.mem_map.mp hq
  cases hvq
  exact ⟨(mem_pyDedupBy_self l v).mp hv, rfl⟩

/-- Core of C6, stated for an arbitrary non-empty value list: `most_common`
returns a member with maximal multiplicity, first-occurring among the tied
maxima. -/
theorem mostCommon1_spec (l : List Value) (hne : l ≠ []) :
    ∃ v, mostCommon1 l = some v ∧ v ∈ l ∧
      (∀ w ∈ l, countVal w l ≤ countVal v l) ∧
      (∀ w ∈ l, countVal w l = countVal v l → firstIdx v l ≤ firstIdx w l) := by
  have hdne : pyDedupBy (fun x => x) l ≠ [] := by
    cases l with
    | nil => exact absurd rfl hne
    | cons a t => simp [pyDedupBy]
  have hcne : pyCounter l ≠ [] := by
    simpa [pyCounter] using hdne
  obtain ⟨p, hp⟩ : ∃ p, firstMode (pyCounter l) = some p := by
    cases hfm : firstMode (pyCounter l) with
    | none => exact absurd ((firstMode_eq_none _).mp hfm) hcne
    | some p => exact ⟨p, rfl⟩
  obtain ⟨⟨l₁, l₂, hsplit, hlt⟩, hmax⟩ := firstMode_some _ p hp
  have hp_mem : p ∈ pyCounter l := by
    rw [hsplit]; exact List.mem_append_right _ (List.mem_cons_self _ _)
  obtain ⟨hp1_mem, hp2⟩ := pyCounter_shape l p hp_mem
  refine ⟨p.1, by simp [mostCommon1, hp], hp1_mem, ?_, ?_⟩
  · intro w hw
    have := hmax (w, countVal w l) (pyCounter_mem l w hw)
    simpa [hp2] using this
  · intro w hw hcnt
    have hwc_mem : (w, countVal w l) ∈ pyCounter l := pyCounter_mem l w hw
    rw [hsplit] at hwc_mem
    rcases List.mem_append.mp hwc_mem with h1 | h2
    · exact absurd (hlt _ h1) (by simp [hp2, hcnt])
    · rcases List.mem_cons.mp h2 with heq | h3
      · have : w = p.1 := congrArg Prod.fst heq
        rw [this]
      · obtain ⟨e₁, x, e₂, hdsplit, hfx, _, he2⟩ :=
          map_eq_append_cons _ _ _ _ _ (show (pyDedupBy (fun x => x) l).map
            (fun v => (v, countVal v l)) = l₁ ++ p :: l₂ from hsplit)
        have hx : x = p.1 := congrArg Prod.fst hfx
        subst hx
        rw [← he2] at h3
        obtain ⟨u, hu_mem, hu_eq⟩ := List.mem_map.mp h3
        have hu : u = w := congrArg Prod.fst hu_eq
        exact pyDedup_order l e₁ e₂ p.1 hdsplit w (hu ▸ hu_mem)

/-- C6: for every list of values (with at least one non-null survivor, the
case in which the engine returns a value at all), the `"majority"` rule
returns a surviving value of strictly highest frequency, and among values
tied for the highest frequency it returns the one that appeared first in
input order. -/
theorem majority_rule_first_mode (values : List Value) (n : Nat)
    (hne : cleanValues values ≠ []) :
    ∃ v, applyAggregationRule values "majority" n = some v ∧
      v ∈ cleanValues values ∧
      (∀ w ∈ cleanValues values,
        countVal w (cleanValues values) ≤ countVal v (cleanValues values)) ∧
      (∀ w ∈ cleanValues values,
        countVal w (cleanValues values) = countVal v (cleanValues values) →
        firstIdx v (cleanValues values) ≤ firstIdx w (cleanValues values)) := by
  obtain ⟨v, hv, hmem, hcnt, htie⟩ := mostCommon1_spec (cleanValues values) hne
  refine ⟨v, ?_, hmem, hcnt, htie⟩
  simp [applyAggregationRule, hne, hv]

/-- Witness for C6: on `[b, a, a, null]` the majority rule returns `a`
(count 2), which is a first-occurring maximum. -/
theorem majority_rule_first_mode_witness :
    ∃ v, applyAggregationRule [Value.vStr "b", Value.vStr "a", Value.vStr "a", Value.vNull] "majority" 0 = some v ∧ v ∈ cleanValues [Value.vStr "b", Value.vStr "a", Value.vStr "a", Value.vNull] ∧ (∀ w ∈ cleanValues [Value.vStr "b", Value.vStr "a", Value.vStr "a", Value.vNull], countVal w (cleanValues [Value.vStr "b", Value.vStr "a", Value.vStr "a", Value.vNull]) ≤ countVal v (cleanValues [Value.vStr "b", Value.vStr "a", Value.vStr "a", Value.vNull])) ∧ (∀ w ∈ cleanValues [Value.vStr "b", Value.vStr "a", Value.vStr "a", Value.vNull], countVal w (cleanValues [Value.vStr "b", Value.vStr "a", Value.vStr "a", Value.vNull]) = countVal v (cleanValues [Value.vStr "b", Value.vStr "a", Value.vStr "a", Value.vNull]) → firstIdx v (cleanValues [Value.vStr "b", Value.vStr "a", Value.vStr "a", Value.vNull]) ≤ firstIdx w (cleanValues [Value.vStr "b", Value.vStr "a", Value.vStr "a", Value.vNull])) :=
  majority_rule_first_mode
    [Value.vStr "b", Value.vStr "a", Value.vStr "a", Value.vNull] 0 (by decide)

/-! ### Spatial matcher (`spatial_matching.py`): claims C5, C2, C1, C4 -/

/-- Abstract geometry primitives (shapely `intersection`, `.area`,
`.is_empty`).  The spatial theorems hold for every implementation. -/
structure GeomOps (G : Type) where
  inter : G → G → G
  area : G → ℚ
  emptyG : G → Bool

/-- One joined record row (the columns of
`DatabaseManager.get_farm_data_with_geometries` used by the core):
historical paddock id, year, namespace (`nspace`; `namespace` is a Lean
keyword), attribute payload, geometry and `updated_at`. -/
structure Row (G : Type) where
  data_paddock_id : String
  year : Int
  nspace : String
  data : List (String × Value)
  geometry : G
  updated_at : Int
deriving DecidableEq

/-- `SpatialMatcher.determine_reference_year`: the maximum year present
(`gdf['year'].max()`); arbitrary on empty input. -/
def referenceYear {G : Type} (rows : List (Row G)) : Int :=
  match rows with
  | [] => 0
  | r :: rs => rs.foldl (fun m s => max m s.year) r.year

/-- `SpatialMatcher.create_reference_paddocks`: filter to the reference
year, then `groupby('data_paddock_id').first()` — one kept row per distinct
paddock id, namely the first-occurring row of each group (on non-null data,
pandas `groupby.first()` returns the first row of the group).  pandas sorts
the group keys; the claims below are insensitive to the order of the kept
rows, so the embedding keeps them in first-occurrence order.  Note that the
method does not sort by `updated_at`: it keeps whatever row comes first in
the input order. -/
def createReferencePaddocks {G : Type} (ry : Int) (rows : List (Row G)) :
    List (Row G) :=
  pyDedupBy (fun r => r.data_paddock_id)
    (rows.filter (fun r => decide (r.year = ry)))

/-- Loop body of `SpatialMatcher.find_best_spatial_match`: skip a candidate
whose intersection with the historical geometry is empty, skip everything
when the historical area is zero, otherwise replace the running best on a
strictly greater overlap fraction.  The Python `try`/`except` that skips a
candidate on a geometry error has no counterpart here: the abstract
primitives are total. -/
def stepBM {G : Type} (ops : GeomOps G) (hist : G) (acc : Option String × ℚ)
    (c : String × G) : Option String × ℚ :=
  let s := ops.inter hist c.2
  if ops.emptyG s then acc
  else if ops.area hist = 0 then acc
  else
    let frac := ops.area s / ops.area hist
    if acc.2 < frac then (some c.1, frac) else acc

/-- `SpatialMatcher.find_best_spatial_match` (lines 45-81): the candidate
loop folded from `(None, 0)` over the reference set in iteration order. -/
def findBestSpatialMatch {G : Type} (ops : GeomOps G) (hist : G)
    (refs : List (String × G)) : Option String × ℚ :=
  refs.foldl (stepBM ops hist) (none, 0)

/-- Overlap fraction of a candidate: intersection area over historical
area (the spec's `overlap_ratio`). -/
def overlapFrac {G : Type} (ops : GeomOps G) (hist : G) (c : String × G) : ℚ :=
  ops.area (ops.inter hist c.2) / ops.area hist

/-- A candidate is considered at all — per the spec, not "skipped" — iff
its intersection with the historical geometry is non-empty and the
historical area is non-zero. -/
def validCand {G : Type} (ops : GeomOps G) (hist : G) (c : String × G) : Bool :=
  !(ops.emptyG (ops.inter hist c.2)) && !(decide (ops.area hist = 0))

/-- The non-skipped candidates, in reference-set iteration order. -/
def specValids {G : Type} (ops : GeomOps G) (hist : G)
    (refs : List (String × G)) : List (String × G) :=
  refs.filter (validCand ops hist)

/-- The greatest overlap fraction among the non-skipped candidates
(`0` if there is none). -/
def specMax {G : Type} (ops : GeomOps G) (hist : G)
    (refs : List (String × G)) : ℚ :=
  ((specValids ops hist refs).map (overlapFrac ops hist)).foldl max 0

/-- Specification-side definition of `best_match`, following the spec's
words (§4.2): skip empty intersections and zero historical area; among the
remaining candidates return the first one attaining the strictly greatest
overlap fraction together with that fraction; if no candidate yields a
positive overlap, return `(none, 0)`. -/
def bestMatchSpec {G : Type} (ops : GeomOps G) (hist : G)
    (refs : List (String × G)) : Option String × ℚ :=
  if 0 < specMax ops hist refs then
    match (specValids ops hist refs).find?
        (fun c => decide (overlapFrac ops hist c = specMax ops hist refs)) with
    | some c => (some c.1, specMax ops hist refs)
    | none => (none, 0)
  else (none, 0)

theorem foldl_max_init_le (a : ℚ) (l : List ℚ) : a ≤ l.foldl max a := by
  induction l generalizing a with
  | nil => exact le_refl a
  | cons x t ih => exact le_trans (le_max_left a x) (ih (max a x))

theorem foldl_max_le_of_mem {x : ℚ} {l : List ℚ} (h : x ∈ l) (a : ℚ) :
    x ≤ l.foldl max a := by
  induction l generalizing a with
  | nil => simp at h
  | cons b t ih =>
    rcases List.mem_cons.mp h with rfl | hxt
    · exact le_trans (le_max_right a x) (foldl_max_init_le _ t)
    · exact ih hxt _

theorem foldl_max_eq_or_mem (l : List ℚ) (a : ℚ) :
    l.foldl max a = a ∨ l.foldl max a ∈ l := by
  induction l generalizing a with
  | nil => exact Or.inl rfl
  | cons b t ih =>
    rcases ih (max a b) with h | h
    · rcases max_choice a b with hm | hm
      · exact Or.inl (by rw [List.foldl_cons, h, hm])
      · exact Or.inr (by
          rw [List.foldl_cons, h, hm]; exact List.mem_cons_self _ _)
    · exact Or.inr (List.mem_cons_of_mem _ h)

theorem specMax_nonneg {G : Type} (ops : GeomOps G) (hist : G)
    (refs : List (String × G)) : 0 ≤ specMax ops hist refs :=
  foldl_max_init_le 0 _

theorem specMax_find_some {G : Type} (ops : GeomOps G) (hist : G)
    (refs : List (String × G)) (h : 0 < specMax ops hist refs) :
    ∃ c, (specValids ops hist refs).find?
        (fun x => decide (overlapFrac ops hist x = specMax ops hist refs)) =
      some c := by
  have hmem : specMax ops hist refs ∈
      (specValids ops hist refs).map (overlapFrac ops hist) := by
    have h2 : (0:ℚ) <
        ((specValids ops hist refs).map (overlapFrac ops hist)).foldl max 0 := h
    rcases foldl_max_eq_or_mem
        ((specValids ops hist refs).map (overlapFrac ops hist)) 0 with h0 | hm
    · rw [h0] at h2
      exact absurd h2 (lt_irrefl 0)
    · exact hm
  obtain ⟨c, hc, hce⟩ := List.mem_map.mp hmem
  have hex : ∃ x ∈ specValids ops hist refs,
      (fun x => decide (overlapFrac ops hist x = specMax ops hist refs)) x
        = true := ⟨c, hc, by simp [hce]⟩
  exact Option.isSome_iff_exists.mp (List.find?_isSome.mpr hex)

theorem bestMatchSpec_snd {G : Type} (ops : GeomOps G) (hist : G)
    (refs : List (String × G)) :
    (bestMatchSpec ops hist refs).2 = specMax ops hist refs := by
  unfold bestMatchSpec
  by_cases h : 0 < specMax ops hist refs
  · rw [if_pos h]
    obtain ⟨c, hc⟩ := specMax_find_some ops hist refs h
    rw [hc]
  · rw [if_neg h]
    exact (le_antisymm (not_lt.mp h) (specMax_nonneg ops hist refs)).symm

theorem validCand_iff {G : Type} (ops : GeomOps G) (hist : G)
    (c : String × G) :
    validCand ops hist c = true ↔
      (ops.emptyG (ops.inter hist c.2) = false ∧ ¬ ops.area hist = 0) := by
  simp [validCand]

theorem stepBM_skip {G : Type} (ops : GeomOps G) (hist : G)
    (acc : Option String × ℚ) (c : String × G)
    (h : validCand ops hist c = false) : stepBM ops hist acc c = acc := by
  unfold stepBM
  by_cases he : ops.emptyG (ops.inter hist c.2)
  · rw [if_pos he]
  · have hz : ops.area hist = 0 := by
      have h3 := h
      simp [validCand, he] at h3
      exact h3
    rw [if_neg he, if_pos hz]

theorem stepBM_valid {G : Type} (ops : GeomOps G) (hist : G)
    (acc : Option String × ℚ) (c : String × G)
    (he : ops.emptyG (ops.inter hist c.2) = false)
    (hz : ¬ ops.area hist = 0) :
    stepBM ops hist acc c =
      if acc.2 < overlapFrac ops hist c
      then (some c.1, overlapFrac ops hist c) else acc := by
  unfold stepBM overlapFrac
  rw [if_neg (by simp [he]), if_neg hz]

theorem bestMatchSpec_congr {G : Type} (ops : GeomOps G) (hist : G)
    (r1 r2 : List (String × G))
    (h : specValids ops hist r1 = specValids ops hist r2) :
    bestMatchSpec ops hist r1 = bestMatchSpec ops hist r2 := by
  unfold bestMatchSpec specMax
  rw [h]

theorem bestMatchSpec_append_new {G : Type} (ops : GeomOps G) (hist : G)
    (l : List (String × G)) (c : String × G)
    (hv : validCand ops hist c = true)
    (hlt : specMax ops hist l < overlapFrac ops hist c) :
    bestMatchSpec ops hist (l ++ [c]) =
      (some c.1, overlapFrac ops hist c) := by
  have hvalids : specValids ops hist (l ++ [c]) =
      specValids ops hist l ++ [c] := by
    simp [specValids, List.filter_append, List.filter, hv]
  have hmax2 : specMax ops hist (l ++ [c]) = overlapFrac ops hist c := by
    unfold specMax
    rw [hvalids, List.map_append, List.foldl_append]
    simp only [List.map_cons, List.map_nil, List.foldl_cons, List.foldl_nil]
    exact max_eq_right (le_of_lt hlt)
  have hpos : 0 < specMax ops hist (l ++ [c]) := by
    rw [hmax2]
    exact lt_of_le_of_lt (specMax_nonneg ops hist l) hlt
  unfold bestMatchSpec
  rw [if_pos hpos, hvalids, List.find?_append]
  have hnone : (specValids ops hist l).find?
      (fun x => decide (overlapFrac ops hist x = specMax ops hist (l ++ [c])))
        = none := by
    rw [List.find?_eq_none]
    intro x hx
    simp only [decide_eq_true_eq]
    intro hfx
    have hle : overlapFrac ops hist x ≤ specMax ops hist l :=
      foldl_max_le_of_mem (List.mem_map_of_mem _ hx) 0
    rw [hfx, hmax2] at hle
    exact absurd hle (not_le.mpr hlt)
  rw [hnone, Option.none_or]
  have hfc : List.find?
      (fun x => decide (overlapFrac ops hist x = specMax ops hist (l ++ [c])))
      [c] = some c := by
    simp [List.find?, hmax2]
  rw [hfc, hmax2]

theorem bestMatchSpec_append_old {G : Type} (ops : GeomOps G) (hist : G)
    (l : List (String × G)) (c : String × G)
    (hv : validCand ops hist c = true)
    (hle : overlapFrac ops hist c ≤ specMax ops hist l) :
    bestMatchSpec ops hist (l ++ [c]) = bestMatchSpec ops hist l := by
  have hvalids : specValids ops hist (l ++ [c]) =
      specValids ops hist l ++ [c] := by
    simp [specValids, List.filter_append, List.filter, hv]
  have hmax2 : specMax ops hist (l ++ [c]) = specMax ops hist l := by
    unfold specMax
    rw [hvalids, List.map_append, List.foldl_append]
    simp only [List.map_cons, List.map_nil, List.foldl_cons, List.foldl_nil]
    exact max_eq_left hle
  by_cases hpos : 0 < specMax ops hist l
  · obtain ⟨c₀, hc₀⟩ := specMax_find_some ops hist l hpos
    unfold bestMatchSpec
    rw [hmax2, if_pos hpos, if_pos hpos, hvalids, List.find?_append, hc₀]
    simp [Option.or]
  · have h0 : specMax ops hist l = 0 :=
      le_antisymm (not_lt.mp hpos) (specMax_nonneg ops hist l)
    unfold bestMatchSpec
    rw [hmax2, if_neg hpos, if_neg hpos]

/-- C5: `find_best_spatial_match` meets the spec of `best_match`: a
candidate with empty intersection is skipped, all candidates are skipped
when the historical area is zero (skipped candidates are excluded, not
scored 0); among the remaining candidates the first one attaining the
strictly greatest overlap fraction is returned with that fraction, ties
kept by reference-set iteration order; and when no candidate yields a
positive overlap the result is `(none, 0)`. -/
theorem find_best_spatial_match_meets_spec {G : Type} (ops : GeomOps G)
    (hist : G) (refs : List (String × G)) :
    findBestSpatialMatch ops hist refs = bestMatchSpec ops hist refs := by
  induction refs using List.reverseRecOn with
  | nil => simp [findBestSpatialMatch, bestMatchSpec, specMax, specValids]
  | append_singleton l c ih =>
    have hstep : findBestSpatialMatch ops hist (l ++ [c]) =
        stepBM ops hist (bestMatchSpec ops hist l) c := by
      rw [findBestSpatialMatch, List.foldl_append]
      simp only [List.foldl_cons, List.foldl_nil]
      rw [← findBestSpatialMatch, ih]
    rw [hstep]
    by_cases hv : validCand ops hist c = true
    · obtain ⟨he, hz⟩ := (validCand_iff ops hist c).mp hv
      rw [stepBM_valid ops hist _ c he hz, bestMatchSpec_snd]
      by_cases hlt : specMax ops hist l < overlapFrac ops hist c
      · rw [if_pos hlt]
        exact (bestMatchSpec_append_new ops hist l c hv hlt).symm
      · rw [if_neg hlt]
        exact (bestMatchSpec_append_old ops hist l c hv (not_lt.mp hlt)).symm
    · have hvf : validCand ops hist c = false := by
        simpa using hv
      rw [stepBM_skip ops hist _ c hvf]
      refine (bestMatchSpec_congr ops hist (l ++ [c]) l ?_).symm
      simp [specValids, List.filter_append, List.filter, hvf]

/-- Value assigned to one historical paddock by the loop body of
`SpatialMatcher.create_paddock_mapping`: the best match when a truthy match
exists with overlap fraction at least the threshold, else the paddock's own
id.  The guard mirrors `if best_match and overlap_ratio >= threshold`; the
Python truthiness check on `best_match` rejects both `None` and the empty
string. -/
def histTarget {G : Type} (ops : GeomOps G) (t : ℚ) (refs : List (String × G))
    (p : Row G) : String :=
  let bm := findBestSpatialMatch ops p.geometry refs
  match bm.1 with
  | some b => if b ≠ "" ∧ t ≤ bm.2 then b else p.data_paddock_id
  | none => p.data_paddock_id

/-- `SpatialMatcher.create_paddock_mapping` (lines 83-113): for each
distinct paddock id of the non-reference years (first occurrence kept by
`drop_duplicates`), insert its target into the mapping dict; then map every
reference paddock id to itself, overwriting any earlier entry. -/
def createPaddockMapping {G : Type} (ops : GeomOps G) (t : ℚ) (ry : Int)
    (refP : List (Row G)) (rows : List (Row G)) : List (String × String) :=
  let refs := refP.map (fun x => (x.data_paddock_id, x.geometry))
  let m1 := (pyDedupBy (fun r => r.data_paddock_id)
      (rows.filter (fun r => decide (r.year ≠ ry)))).foldl
    (fun m p => updateAssoc m p.data_paddock_id (histTarget ops t refs p)) []
  refP.foldl (fun m x => updateAssoc m x.data_paddock_id x.data_paddock_id) m1

/-- The mapping as produced by the driver pipeline
(`PaddockETL.process_single_farm`): determine the reference year, build the
reference paddock set, then build the mapping. -/
def fullPaddockMapping {G : Type} (ops : GeomOps G) (t : ℚ)
    (rows : List (Row G)) : List (String × String) :=
  createPaddockMapping ops t (referenceYear rows)
    (createReferencePaddocks (referenceYear rows) rows) rows

theorem alookup_updateAssoc_self {κ β : Type} [DecidableEq κ]
    (m : List (κ × β)) (k : κ) (v : β) :
    alookup (updateAssoc m k v) k = some v := by
  induction m with
  | nil => simp [updateAssoc, alookup]
  | cons p m ih =>
    by_cases hp : p.1 = k
    · simp [updateAssoc, hp, alookup]
    · simp [updateAssoc, hp, alookup, ih]

theorem alookup_updateAssoc_ne {κ β : Type} [DecidableEq κ]
    (m : List (κ × β)) (k k' : κ) (v : β) (h : k' ≠ k) :
    alookup (updateAssoc m k v) k' = alookup m k' := by
  induction m with
  | nil => simp [updateAssoc, alookup, Ne.symm h]
  | cons p m ih =>
    obtain ⟨p1, p2⟩ := p
    simp only [updateAssoc]
    by_cases hp : p1 = k
    · subst hp
      rw [if_pos rfl]
      simp only [alookup]
      rw [if_neg (Ne.symm h), if_neg (Ne.symm h)]
    · rw [if_neg hp]
      simp only [alookup]
      by_cases hp' : p1 = k'
      · rw [if_pos hp', if_pos hp']
      · rw [if_neg hp', if_neg hp', ih]

theorem alookup_foldl_update_ni {α : Type} (g h : α → String) :
    ∀ (l : List α) (m : List (String × String)) (k : String),
      (∀ a ∈ l, g a ≠ k) →
      alookup (l.foldl (fun m a => updateAssoc m (g a) (h a)) m) k =
        alookup m k := by
  intro l
  induction l with
  | nil => intro m k _; rfl
  | cons b t ih =>
    intro m k hk
    rw [List.foldl_cons]
    rw [ih (updateAssoc m (g b) (h b)) k (fun a ha => hk a (List.mem_cons_of_mem _ ha))]
    exact alookup_updateAssoc_ne m (g b) k (h b)
      (fun he => hk b (List.mem_cons_self _ _) he.symm)

theorem alookup_foldl_update_mem {α : Type} (g h : α → String) :
    ∀ (l : List α) (m : List (String × String)) (a : α),
      a ∈ l → (l.map g).Nodup →
      alookup (l.foldl (fun m a => updateAssoc m (g a) (h a)) m) (g a) =
        some (h a) := by
  intro l
  induction l with
  | nil => intro m a ha; simp at ha
  | cons b t ih =>
    intro m a ha hnd
    rw [List.map_cons, List.nodup_cons] at hnd
    rw [List.foldl_cons]
    rcases List.mem_cons.mp ha with rfl | hat
    · rw [alookup_foldl_update_ni g h t (updateAssoc m (g a) (h a)) (g a)
        (fun x hx he => hnd.1 (he ▸ List.mem_map_of_mem g hx))]
      exact alookup_updateAssoc_self m (g a) (h a)
    · exact ih (updateAssoc m (g b) (h b)) a hat hnd.2

theorem mem_map_key_pyDedupBy {α κ : Type} [DecidableEq κ] (key : α → κ) :
    ∀ (l : List α) (k : κ),
      k ∈ (pyDedupBy key l).map key ↔ k ∈ l.map key := by
  intro l
  induction l with
  | nil => intro k; simp [pyDedupBy]
  | cons a t ih =>
    intro k
    simp only [pyDedupBy, List.map_cons, List.mem_cons]
    constructor
    · rintro (rfl | hk)
      · exact Or.inl rfl
      · obtain ⟨b, hb, hbk⟩ := List.mem_map.mp hk
        exact Or.inr ((ih k).mp
          (hbk ▸ List.mem_map_of_mem key (List.mem_of_mem_filter hb)))
    · rintro (rfl | hk)
      · exact Or.inl rfl
      · obtain ⟨b, hb, hbk⟩ := List.mem_map.mp ((ih k).mpr hk)
        by_cases hba : key b = key a
        · exact Or.inl (by rw [← hbk, hba])
        · exact Or.inr (hbk ▸ List.mem_map_of_mem key
            (List.mem_filter.mpr ⟨hb, by simpa using hba⟩))

theorem nodup_map_key_pyDedupBy {α κ : Type} [DecidableEq κ] (key : α → κ) :
    ∀ (l : List α), ((pyDedupBy key l).map key).Nodup := by
  intro l
  induction l with
  | nil => simp [pyDedupBy]
  | cons a t ih =>
    simp only [pyDedupBy, List.map_cons, List.nodup_cons]
    refine ⟨?_, ?_⟩
    · intro hka
      obtain ⟨b, hb, hbk⟩ := List.mem_map.mp hka
      have := (List.mem_filter.mp hb).2
      simp [hbk] at this
    · exact ((List.filter_sublist _).map key).nodup ih

theorem mem_of_mem_pyDedupBy {α κ : Type} [DecidableEq κ] (key : α → κ) :
    ∀ (l : List α) (a : α), a ∈ pyDedupBy key l → a ∈ l := by
  intro l
  induction l with
  | nil => intro a ha; simp [pyDedupBy] at ha
  | cons b t ih =>
    intro a ha
    rcases List.mem_cons.mp ha with rfl | ha2
    · exact List.mem_cons_self _ _
    · exact List.mem_cons_of_mem _ (ih a (List.mem_of_mem_filter ha2))

theorem findBestSpatialMatch_mem {G : Type} (ops : GeomOps G) (hist : G) :
    ∀ (refs : List (String × G)) (acc : Option String × ℚ) (b : String),
      (refs.foldl (stepBM ops hist) acc).1 = some b →
      b ∈ refs.map Prod.fst ∨ acc.1 = some b := by
  intro refs
  induction refs with
  | nil => intro acc b h; exact Or.inr h
  | cons c t ih =>
    intro acc b h
    rw [List.foldl_cons] at h
    rcases ih (stepBM ops hist acc c) b h with hm | hacc
    · exact Or.inl (List.mem_cons_of_mem _ hm)
    · simp only [stepBM] at hacc
      split at hacc
      · exact Or.inr hacc
      · split at hacc
        · exact Or.inr hacc
        · split at hacc
          · have hb : c.1 = b := Option.some.inj hacc
            exact Or.inl (by
              rw [List.map_cons]
              exact hb ▸ List.mem_cons_self _ _)
          · exact Or.inr hacc

theorem pyDedupBy_first_of_sorted {G : Type} :
    ∀ l : List (Row G),
      l.Pairwise (fun a b => b.updated_at ≤ a.updated_at) →
      ∀ r ∈ pyDedupBy (fun x => x.data_paddock_id) l,
      ∀ s ∈ l, s.data_paddock_id = r.data_paddock_id →
      s.updated_at ≤ r.updated_at := by
  intro l
  induction l with
  | nil => intro _ r hr; simp [pyDedupBy] at hr
  | cons a t ih =>
    intro hp r hr s hs hk
    rw [List.pairwise_cons] at hp
    rcases List.mem_cons.mp hr with rfl | hr2
    · rcases List.mem_cons.mp hs with rfl | hs2
      · exact le_refl _
      · exact hp.1 s hs2
    · have hrk : r.data_paddock_id ≠ a.data_paddock_id := by
        have h2 := (List.mem_filter.mp hr2).2
        simpa using h2
      have hrd : r ∈ pyDedupBy (fun x => x.data_paddock_id) t :=
        List.mem_of_mem_filter hr2
      rcases List.mem_cons.mp hs with rfl | hs2
      · exact absurd hk.symm hrk
      · exact ih hp.2 r hrd s hs2 hk

/-- C2 counterexample: two reference-year records for paddock "A" arriving
oldest-first.  `create_reference_paddocks` keeps the first-arriving
geometry `10` (with `updated_at = 1`) even though the most recently updated
record (`updated_at = 2`) carries geometry `20`: the function does not
itself sort by descending `updated_at` before grouping, so the kept
geometry depends on the input order. -/
theorem create_reference_paddocks_no_sort_counterexample :
    (createReferencePaddocks 1
        [(⟨"A", 1, "ns", [], 10, 1⟩ : Row Nat), ⟨"A", 1, "ns", [], 20, 2⟩]).map
      (fun r => (r.geometry, r.updated_at)) = [(10, 1)] ∧
    (20 : Nat) ∉ (createReferencePaddocks 1
        [(⟨"A", 1, "ns", [], 10, 1⟩ : Row Nat), ⟨"A", 1, "ns", [], 20, 2⟩]).map
      (fun r => r.geometry) := by
  constructor <;> decide

/-- C2 (amended): `create_reference_paddocks` does not itself sort by
`updated_at`; it keeps, per paddock id, the first reference-year record in
input order.  When the reference-year records arrive sorted by descending
`updated_at` — which is how the extraction query delivers them
(`ORDER BY d.year DESC, p.updated_at DESC` in
`DatabaseManager.get_farm_data_with_geometries`) — the kept record has
maximal `updated_at` among its paddock id's reference-year records, i.e.
the most recently updated geometry wins. -/
theorem create_reference_paddocks_recency_amended {G : Type}
    (ry : Int) (rows : List (Row G))
    (hsorted : (rows.filter (fun r => decide (r.year = ry))).Pairwise
      (fun a b => b.updated_at ≤ a.updated_at)) :
    ∀ r ∈ createReferencePaddocks ry rows,
    ∀ s ∈ rows, s.year = ry → s.data_paddock_id = r.data_paddock_id →
    s.updated_at ≤ r.updated_at := by
  intro r hr s hs hy hk
  exact pyDedupBy_first_of_sorted _ hsorted r hr s
    (List.mem_filter.mpr ⟨hs, by simp [hy]⟩) hk

/-- Witness for the amended C2 on a two-record farm sorted by descending
`updated_at`: the kept row for "A" has the maximal `updated_at`. -/
theorem create_reference_paddocks_recency_amended_witness :
    (⟨"A", 1, "ns", [], 10, 1⟩ : Row Nat).updated_at ≤
      (⟨"A", 1, "ns", [], 20, 2⟩ : Row Nat).updated_at :=
  create_reference_paddocks_recency_amended 1
    [(⟨"A", 1, "ns", [], 20, 2⟩ : Row Nat), ⟨"A", 1, "ns", [], 10, 1⟩]
    (by simp [List.pairwise_cons])
    ⟨"A", 1, "ns", [], 20, 2⟩ (by decide)
    ⟨"A", 1, "ns", [], 10, 1⟩ (by decide) (by decide) (by decide)

theorem histTarget_eq_match {G : Type} (ops : GeomOps G) (t : ℚ)
    (refs : List (String × G)) (p : Row G) :
    histTarget ops t refs p =
      (match findBestSpatialMatch ops p.geometry refs with
        | (some b, frac) =>
          if b ≠ "" ∧ t ≤ frac then b else p.data_paddock_id
        | (none, _) => p.data_paddock_id) := by
  unfold histTarget
  generalize findBestSpatialMatch ops p.geometry refs = bm
  obtain ⟨o, q⟩ := bm
  cases o <;> rfl

theorem histTarget_self_or_match {G : Type} (ops : GeomOps G) (t : ℚ)
    (refs : List (String × G)) (p : Row G) :
    histTarget ops t refs p = p.data_paddock_id ∨
    ∃ b, (findBestSpatialMatch ops p.geometry refs).1 = some b ∧
      histTarget ops t refs p = b := by
  rw [histTarget_eq_match]
  generalize findBestSpatialMatch ops p.geometry refs = bm
  obtain ⟨o, q⟩ := bm
  cases o with
  | none => exact Or.inl rfl
  | some b =>
    by_cases hc : b ≠ "" ∧ t ≤ q
    · refine Or.inr ⟨b, rfl, ?_⟩
      show (if b ≠ "" ∧ t ≤ q then b else p.data_paddock_id) = b
      rw [if_pos hc]
    · refine Or.inl ?_
      show (if b ≠ "" ∧ t ≤ q then b else p.data_paddock_id) = p.data_paddock_id
      rw [if_neg hc]

/-- C1 counterexample: a farm with historical paddock "A" (year 0) and
reference paddock "B" (year 1) whose geometries do not overlap (every
intersection is empty).  "A" is unresolved and maps to itself, yet "A" is
not a key of the reference-year paddock set — refuting the claim that
`paddock_mapping[p]` is always itself a key of the reference-year set. -/
theorem mapping_totality_counterexample :
    alookup (fullPaddockMapping
        (⟨fun _ _ => (), fun _ => 0, fun _ => true⟩ : GeomOps Unit) (3/10)
        [⟨"A", 0, "ns", [], (), 0⟩, ⟨"B", 1, "ns", [], (), 0⟩]) "A" =
      some "A" ∧
    "A" ∉ (createReferencePaddocks
        (referenceYear [(⟨"A", 0, "ns", [], (), 0⟩ : Row Unit),
          ⟨"B", 1, "ns", [], (), 0⟩])
        [⟨"A", 0, "ns", [], (), 0⟩, ⟨"B", 1, "ns", [], (), 0⟩]).map
      (fun r => r.data_paddock_id) := by
  constructor
  · simp [fullPaddockMapping, createPaddockMapping, createReferencePaddocks,
      referenceYear, pyDedupBy, histTarget, findBestSpatialMatch, stepBM,
      updateAssoc, alookup, List.filter]
  · simp [createReferencePaddocks, referenceYear, pyDedupBy, List.filter]

/-- C1 (amended): for any farm input, every paddock id present in the input
appears as a key of the produced mapping, and its image is either a key of
the reference-year paddock set (a resolved spatial match, or a reference id
mapped to itself) or the paddock id itself (the unresolved fallback, which
keeps the historical identity distinct).  The original claim's second half
— that the image is always a reference-year key — fails exactly on the
fallback. -/
theorem mapping_totality_amended {G : Type} (ops : GeomOps G) (t : ℚ)
    (rows : List (Row G)) (r : Row G) (hr : r ∈ rows) :
    ∃ v, alookup (fullPaddockMapping ops t rows) r.data_paddock_id = some v ∧
      (v ∈ (createReferencePaddocks (referenceYear rows) rows).map
          (fun x => x.data_paddock_id) ∨ v = r.data_paddock_id) := by
  simp only [fullPaddockMapping, createPaddockMapping]
  by_cases hid : r.data_paddock_id ∈
      (createReferencePaddocks (referenceYear rows) rows).map
        (fun x => x.data_paddock_id)
  · obtain ⟨x, hx, hxk⟩ := List.mem_map.mp hid
    refine ⟨r.data_paddock_id, ?_, Or.inr rfl⟩
    have hnd : ((createReferencePaddocks (referenceYear rows) rows).map
        (fun x => x.data_paddock_id)).Nodup :=
      nodup_map_key_pyDedupBy _ _
    rw [← hxk]
    exact alookup_foldl_update_mem (fun x : Row G => x.data_paddock_id)
      (fun x : Row G => x.data_paddock_id)
      (createReferencePaddocks (referenceYear rows) rows) _ x hx hnd
  · have hyr : r.year ≠ referenceYear rows := by
      intro hy
      refine hid ((mem_map_key_pyDedupBy _ _ _).mpr ?_)
      exact List.mem_map_of_mem _ (List.mem_filter.mpr ⟨hr, by simp [hy]⟩)
    have hmem : r.data_paddock_id ∈
        (pyDedupBy (fun x => x.data_paddock_id)
          (rows.filter (fun x => decide (x.year ≠ referenceYear rows)))).map
          (fun x => x.data_paddock_id) :=
      (mem_map_key_pyDedupBy _ _ _).mpr
        (List.mem_map_of_mem _ (List.mem_filter.mpr ⟨hr, by simp [hyr]⟩))
    obtain ⟨p, hp, hpk⟩ := List.mem_map.mp hmem
    have hni : ∀ x ∈ createReferencePaddocks (referenceYear rows) rows,
        x.data_paddock_id ≠ r.data_paddock_id :=
      fun x hx he => hid (he ▸ List.mem_map_of_mem _ hx)
    refine ⟨histTarget ops t
      ((createReferencePaddocks (referenceYear rows) rows).map
        (fun x => (x.data_paddock_id, x.geometry))) p, ?_, ?_⟩
    · rw [alookup_foldl_update_ni (fun x : Row G => x.data_paddock_id)
        (fun x : Row G => x.data_paddock_id) _ _ _ hni]
      rw [← hpk]
      exact alookup_foldl_update_mem (fun x : Row G => x.data_paddock_id)
        (histTarget ops t
          ((createReferencePaddocks (referenceYear rows) rows).map
            (fun x => (x.data_paddock_id, x.geometry))))
        (pyDedupBy (fun x => x.data_paddock_id)
          (rows.filter (fun x => decide (x.year ≠ referenceYear rows))))
        [] p hp (nodup_map_key_pyDedupBy _ _)
    · rcases histTarget_self_or_match ops t
        ((createReferencePaddocks (referenceYear rows) rows).map
          (fun x => (x.data_paddock_id, x.geometry))) p with hself | ⟨b, hb, hbe⟩
      · exact Or.inr (by rw [hself, hpk])
      · refine Or.inl ?_
        rw [hbe]
        rcases findBestSpatialMatch_mem ops p.geometry _ (none, 0) b hb
          with hbm | habs
        · rw [List.map_map] at hbm
          exact hbm
        · exact absurd habs (by simp)

/-- Witness for the amended C1 at the two-paddock farm of the
counterexample: the historical paddock "A" gets a mapping entry whose
image is a reference key or "A" itself. -/
theorem mapping_totality_amended_witness :
    ∃ v, alookup (fullPaddockMapping
        (⟨fun _ _ => (), fun _ => 0, fun _ => true⟩ : GeomOps Unit) (3/10)
        [⟨"A", 0, "ns", [], (), 0⟩, ⟨"B", 1, "ns", [], (), 0⟩])
      (⟨"A", 0, "ns", [], (), 0⟩ : Row Unit).data_paddock_id = some v ∧
      (v ∈ (createReferencePaddocks
          (referenceYear [(⟨"A", 0, "ns", [], (), 0⟩ : Row Unit),
            ⟨"B", 1, "ns", [], (), 0⟩])
          [⟨"A", 0, "ns", [], (), 0⟩, ⟨"B", 1, "ns", [], (), 0⟩]).map
          (fun x => x.data_paddock_id) ∨
        v = (⟨"A", 0, "ns", [], (), 0⟩ : Row Unit).data_paddock_id) :=
  mapping_totality_amended
    (⟨fun _ _ => (), fun _ => 0, fun _ => true⟩ : GeomOps Unit) (3/10)
    [⟨"A", 0, "ns", [], (), 0⟩, ⟨"B", 1, "ns", [], (), 0⟩]
    ⟨"A", 0, "ns", [], (), 0⟩ (by decide)

/-- C4 counterexample: a reference set whose single paddock has the empty
string as its id.  The historical paddock "A" is fully covered by it
(overlap fraction 1 ≥ threshold 3/10), so the claim requires
`mapping["A"] = ""`; but `if best_match and ...` tests Python truthiness,
and the empty string is falsy, so the code maps "A" to itself. -/
theorem build_mapping_truthiness_counterexample :
    alookup (fullPaddockMapping
        (⟨fun _ _ => (), fun _ => 1, fun _ => false⟩ : GeomOps Unit) (3/10)
        [⟨"A", 0, "ns", [], (), 0⟩, ⟨"", 1, "ns", [], (), 0⟩]) "A" =
      some "A" ∧
    findBestSpatialMatch
        (⟨fun _ _ => (), fun _ => 1, fun _ => false⟩ : GeomOps Unit) ()
        [("", ())] = (some "", 1) ∧
    ((3 : ℚ)/10) ≤ 1 ∧ ("A" : String) ≠ "" := by
  have hfb : findBestSpatialMatch
      (⟨fun _ _ => (), fun _ => 1, fun _ => false⟩ : GeomOps Unit) ()
      [("", ())] = (some "", 1) := by
    simp [findBestSpatialMatch, stepBM]
  refine ⟨?_, hfb, by norm_num, by decide⟩
  simp [fullPaddockMapping, createPaddockMapping, createReferencePaddocks,
    referenceYear, pyDedupBy, histTarget, hfb, updateAssoc, alookup,
    List.filter]

/-- C4 (amended): for every distinct paddock id occurring in non-reference
years only — represented by its first historical occurrence `r`, whose
geometry is the one matched — the mapping sends it to its best spatial
match exactly when a match exists, the matched id is non-empty (the Python
truthiness check `if best_match` rejects the empty string), and the overlap
fraction is at least the threshold (inclusive `>=`); otherwise it maps to
itself.  Every reference-year paddock id maps to itself, even if it also
occurs in earlier years, because the reference self-mapping loop runs last
and overwrites. -/
theorem build_mapping_amended {G : Type} (ops : GeomOps G) (t : ℚ)
    (rows : List (Row G)) (r : Row G)
    (hr : r ∈ pyDedupBy (fun x => x.data_paddock_id)
      (rows.filter (fun x => decide (x.year ≠ referenceYear rows))))
    (hnr : r.data_paddock_id ∉
      (createReferencePaddocks (referenceYear rows) rows).map
        (fun x => x.data_paddock_id)) :
    (alookup (fullPaddockMapping ops t rows) r.data_paddock_id =
      some (match findBestSpatialMatch ops r.geometry
          ((createReferencePaddocks (referenceYear rows) rows).map
            (fun x => (x.data_paddock_id, x.geometry))) with
        | (some b, frac) =>
          if b ≠ "" ∧ t ≤ frac then b else r.data_paddock_id
        | (none, _) => r.data_paddock_id)) ∧
    (∀ q ∈ (createReferencePaddocks (referenceYear rows) rows).map
        (fun x => x.data_paddock_id),
      alookup (fullPaddockMapping ops t rows) q = some q) := by
  constructor
  · simp only [fullPaddockMapping, createPaddockMapping]
    have hni : ∀ x ∈ createReferencePaddocks (referenceYear rows) rows,
        x.data_paddock_id ≠ r.data_paddock_id := by
      intro x hx he
      exact hnr (he ▸ List.mem_map_of_mem _ hx)
    rw [alookup_foldl_update_ni (fun x : Row G => x.data_paddock_id)
      (fun x : Row G => x.data_paddock_id) _ _ _ hni]
    rw [← histTarget_eq_match]
    exact alookup_foldl_update_mem (fun x : Row G => x.data_paddock_id)
      (histTarget ops t
        ((createReferencePaddocks (referenceYear rows) rows).map
          (fun x => (x.data_paddock_id, x.geometry))))
      (pyDedupBy (fun x => x.data_paddock_id)
        (rows.filter (fun x => decide (x.year ≠ referenceYear rows))))
      [] r hr (nodup_map_key_pyDedupBy _ _)
  · intro q hq
    obtain ⟨x, hx, hxk⟩ := List.mem_map.mp hq
    simp only [fullPaddockMapping, createPaddockMapping]
    rw [← hxk]
    exact alookup_foldl_update_mem (fun x : Row G => x.data_paddock_id)
      (fun x : Row G => x.data_paddock_id)
      (createReferencePaddocks (referenceYear rows) rows) _ x hx
      (nodup_map_key_pyDedupBy _ _)

/-- Witness for the amended C4: historical "A" (year 0), reference "B"
(year 1), full overlap; the mapping conclusion holds at this input. -/
theorem build_mapping_amended_witness :
    (alookup (fullPaddockMapping
        (⟨fun _ _ => (), fun _ => 1, fun _ => false⟩ : GeomOps Unit) (3/10)
        [⟨"A", 0, "ns", [], (), 0⟩, ⟨"B", 1, "ns", [], (), 0⟩])
      (⟨"A", 0, "ns", [], (), 0⟩ : Row Unit).data_paddock_id =
      some (match findBestSpatialMatch
          (⟨fun _ _ => (), fun _ => 1, fun _ => false⟩ : GeomOps Unit)
          (⟨"A", 0, "ns", [], (), 0⟩ : Row Unit).geometry
          ((createReferencePaddocks
            (referenceYear [(⟨"A", 0, "ns", [], (), 0⟩ : Row Unit),
              ⟨"B", 1, "ns", [], (), 0⟩])
            [⟨"A", 0, "ns", [], (), 0⟩, ⟨"B", 1, "ns", [], (), 0⟩]).map
            (fun x => (x.data_paddock_id, x.geometry))) with
        | (some b, frac) =>
          if b ≠ "" ∧ (3 : ℚ)/10 ≤ frac then b
          else (⟨"A", 0, "ns", [], (), 0⟩ : Row Unit).data_paddock_id
        | (none, _) =>
          (⟨"A", 0, "ns", [], (), 0⟩ : Row Unit).data_paddock_id)) ∧
    (∀ q ∈ (createReferencePaddocks
        (referenceYear [(⟨"A", 0, "ns", [], (), 0⟩ : Row Unit),
          ⟨"B", 1, "ns", [], (), 0⟩])
        [⟨"A", 0, "ns", [], (), 0⟩, ⟨"B", 1, "ns", [], (), 0⟩]).map
        (fun x => x.data_paddock_id),
      alookup (fullPaddockMapping
          (⟨fun _ _ => (), fun _ => 1, fun _ => false⟩ : GeomOps Unit) (3/10)
          [⟨"A", 0, "ns", [], (), 0⟩, ⟨"B", 1, "ns", [], (), 0⟩]) q =
        some q) :=
  build_mapping_amended
    (⟨fun _ _ => (), fun _ => 1, fun _ => false⟩ : GeomOps Unit) (3/10)
    [⟨"A", 0, "ns", [], (), 0⟩, ⟨"B", 1, "ns", [], (), 0⟩]
    ⟨"A", 0, "ns", [], (), 0⟩ (by decide) (by decide)

/-! ### Normalizer (`data_processing.py`): claims C9, C10 -/

/-- `ETLConfig` (`config.py`): the overlap threshold and the
per-namespace, per-key aggregation rule table. -/
structure ETLConfig where
  min_overlap_threshold : ℚ
  namespace_aggregation_rules : List (String × List (String × String))

/-- The default configuration built by `ETLConfig.__post_init__`. -/
def defaultETLConfig : ETLConfig :=
  ⟨3/10,
   [("livestock",
     [("animal_count", "sum"), ("stocking_rate", "mean"),
      ("animal_type", "first")]),
    ("production",
     [("total_yield", "sum"), ("yield_per_ha", "mean"),
      ("crop_type", "first")])]⟩

/-- `DataProcessor.combine_namespace_data` (lines 14-48): a singleton group
passes its record's data through unchanged; a larger group looks up the
namespace's rule table, unions the attribute keys across the group (a
Python `set`, modelled in first-occurrence order — no claim depends on the
set's iteration order), collects each key's present values (a key present
with a null value contributes that null; an absent key contributes
nothing), and applies the configured rule, defaulting to `"first"`. -/
def combine_namespace_data {G : Type} (config : ETLConfig)
    (group : List (Row G)) (nspace : String) (paddock_count : Nat) :
    List (String × Value) :=
  match group with
  | [g] => g.data
  | _ =>
    let rules := (alookup config.namespace_aggregation_rules nspace).getD []
    let allKeys := pyDedupBy (fun s => s)
      (group.flatMap (fun r => r.data.map Prod.fst))
    allKeys.map (fun key =>
      let values := group.filterMap (fun r => alookup r.data key)
      if values = [] then (key, Value.vNull)
      else (key,
        (applyAggregationRule values ((alookup rules key).getD "first")
          paddock_count).getD Value.vNull))

/-- One row of the intermediate `result_data` built by
`DataProcessor.normalize_farm_data`: the grouping key, the stored cell
(`json.dumps(combined_data) if combined_data else None` — null when the
combined mapping is empty, with the serialization modelled structurally),
and the distinct-original-paddock count. -/
structure ResultRow where
  normalized_paddock_id : String
  year : Int
  nspace : String
  data : Option (List (String × Value))
  original_paddock_count : Nat
deriving DecidableEq

/-- `gdf['data_paddock_id'].map(paddock_mapping)` paired with the source
row; records whose paddock id has no mapping entry become NaN and are
dropped by the grouping (`if pd.isna(norm_paddock_id): continue`). -/
def mappedRecords {G : Type} (rows : List (Row G))
    (mapping : List (String × String)) : List (String × Row G) :=
  rows.filterMap (fun r =>
    (alookup mapping r.data_paddock_id).map (fun p => (p, r)))

/-- The grouping key of `normalize_farm_data`:
(normalized paddock id, year, namespace). -/
def groupKey {G : Type} (pr : String × Row G) : String × Int × String :=
  (pr.1, pr.2.year, pr.2.nspace)

/-- Loop body of `DataProcessor.normalize_farm_data` for one grouping key:
take the group's rows, count the distinct original paddock ids
(`len(group['data_paddock_id'].unique())`), combine the namespace data, and
store `json.dumps(combined) if combined else None` (modelled structurally:
`none` when the combined mapping is empty). -/
def buildEntry {G : Type} (config : ETLConfig)
    (mapped : List (String × Row G)) (k : String × Int × String) :
    ResultRow :=
  let grp := (mapped.filter (fun pr => decide (groupKey pr = k))).map
    Prod.snd
  let cnt := (pyDedupBy (fun s => s)
    (grp.map (fun r => r.data_paddock_id))).length
  let combined := combine_namespace_data config grp k.2.2 cnt
  ⟨k.1, k.2.1, k.2.2,
    if combined = [] then none else some combined, cnt⟩

/-- `DataProcessor.normalize_farm_data` (lines 92-144) up to the pivot:
map each record's paddock id through the mapping (unmapped records are
dropped), group by (mapped paddock id, year, namespace) — pandas sorts the
group keys, the embedding groups in first-occurrence order; the claims
below are stated at the level of key sets and per-key cells, unaffected by
key order — and emit one result row per group. -/
def normalize_farm_data {G : Type} (config : ETLConfig)
    (rows : List (Row G)) (mapping : List (String × String)) :
    List ResultRow :=
  let mapped := mappedRecords rows mapping
  (pyDedupBy (fun k => k) (mapped.map groupKey)).map
    (buildEntry config mapped)

/-- The row keys of the final `pivot_table`: `pivot_table` drops null
values before aggregating, so a (paddock, year) key appears in the pivoted
output iff some namespace cell for it is non-null. -/
def pivotKeys (res : List ResultRow) : List (String × Int) :=
  pyDedupBy (fun k => k)
    ((res.filter (fun e => e.data.isSome)).map
      (fun e => (e.normalized_paddock_id, e.year)))

/-- The cell of the final pivot at (paddock, year, namespace): the first
matching result row's stored data (`aggfunc='first'`), null when there is
none or when the stored cell is null. -/
def pivotCell (res : List ResultRow) (p : String) (y : Int) (ns : String) :
    Option (List (String × Value)) :=
  (res.find? (fun e =>
    decide ((e.normalized_paddock_id, e.year, e.nspace) = (p, y, ns)))).bind
    (fun e => e.data)

theorem filterMap_eq_map_of_forall {α β : Type} (f : α → Option β)
    (g : α → β) :
    ∀ l : List α, (∀ a ∈ l, f a = some (g a)) → l.filterMap f = l.map g := by
  intro l
  induction l with
  | nil => intro _; rfl
  | cons a t ih =>
    intro h
    simp only [List.filterMap_cons, h a (List.mem_cons_self _ _),
      List.map_cons]
    rw [ih (fun x hx => h x (List.mem_cons_of_mem _ hx))]

theorem find?_map_key {α β : Type} [DecidableEq α] (f : α → β)
    (proj : β → α) :
    ∀ ks : List α, (∀ k ∈ ks, proj (f k) = k) → ks.Nodup →
      ∀ k0 ∈ ks,
        (ks.map f).find? (fun e => decide (proj e = k0)) = some (f k0) := by
  intro ks
  induction ks with
  | nil => intro _ _ k0 hk0; simp at hk0
  | cons a t ih =>
    intro hproj hnd k0 hk0
    rw [List.map_cons]
    rcases List.mem_cons.mp hk0 with rfl | hk0t
    · rw [List.find?_cons_of_pos _
        (by simp [hproj k0 (List.mem_cons_self _ _)])]
    · have hne : a ≠ k0 := fun he =>
        (List.nodup_cons.mp hnd).1 (he ▸ hk0t)
      rw [List.find?_cons_of_neg _
        (by simp [hproj a (List.mem_cons_self _ _), hne])]
      exact ih (fun k hk => hproj k (List.mem_cons_of_mem _ hk))
        (List.nodup_cons.mp hnd).2 k0 hk0t

theorem nodup_pyDedupBy_id {α : Type} [DecidableEq α] (l : List α) :
    (pyDedupBy (fun x => x) l).Nodup := by
  have h := nodup_map_key_pyDedupBy (fun x => x) l
  rwa [List.map_id'] at h

/-- C9: the Normalizer is idempotent under an identity mapping.  On input
whose paddock mapping is the identity, where every (paddock, year,
namespace) group contains exactly one record (with non-empty data, as in
any already-normalized output re-read as records), the output has exactly
the input's (paddock id, year) keys and each record's data is passed
through unchanged. -/
theorem normalizer_idempotent {G : Type} (config : ETLConfig)
    (rows : List (Row G)) (mapping : List (String × String))
    (hId : ∀ r ∈ rows,
      alookup mapping r.data_paddock_id = some r.data_paddock_id)
    (hSingle : ∀ r ∈ rows, rows.filter (fun s =>
      decide ((s.data_paddock_id, s.year, s.nspace) =
        (r.data_paddock_id, r.year, r.nspace))) = [r])
    (hNE : ∀ r ∈ rows, r.data ≠ []) :
    (∀ p y, (p, y) ∈ pivotKeys (normalize_farm_data config rows mapping) ↔
      ∃ r ∈ rows, r.data_paddock_id = p ∧ r.year = y) ∧
    (∀ r ∈ rows, pivotCell (normalize_farm_data config rows mapping)
      r.data_paddock_id r.year r.nspace = some r.data) := by
  have hmapped : mappedRecords rows mapping =
      rows.map (fun r => (r.data_paddock_id, r)) := by
    refine filterMap_eq_map_of_forall _ _ rows ?_
    intro a ha
    rw [hId a ha]
    rfl
  have hkeys_eq : (mappedRecords rows mapping).map groupKey =
      rows.map (fun r => (r.data_paddock_id, r.year, r.nspace)) := by
    rw [hmapped, List.map_map]
    rfl
  have hgrp : ∀ r ∈ rows, ((mappedRecords rows mapping).filter (fun pr =>
      decide (groupKey pr =
        (r.data_paddock_id, r.year, r.nspace)))).map Prod.snd = [r] := by
    intro r hr
    rw [hmapped, List.filter_map]
    have hconv : ((fun pr : String × Row G => decide (groupKey pr =
        (r.data_paddock_id, r.year, r.nspace))) ∘
        (fun s : Row G => (s.data_paddock_id, s))) =
        (fun s : Row G => decide ((s.data_paddock_id, s.year, s.nspace) =
          (r.data_paddock_id, r.year, r.nspace))) := rfl
    rw [hconv, hSingle r hr]
    rfl
  have hkmem : ∀ k, k ∈ pyDedupBy (fun k => k)
      ((mappedRecords rows mapping).map groupKey) ↔
      ∃ r ∈ rows, (r.data_paddock_id, r.year, r.nspace) = k := by
    intro k
    rw [mem_pyDedupBy_self, hkeys_eq]
    constructor
    · intro hk
      obtain ⟨r, hr, hrk⟩ := List.mem_map.mp hk
      exact ⟨r, hr, hrk⟩
    · rintro ⟨r, hr, hrk⟩
      exact hrk ▸ List.mem_map_of_mem _ hr
  have hbuild : ∀ r ∈ rows, buildEntry config (mappedRecords rows mapping)
      (r.data_paddock_id, r.year, r.nspace) =
      ⟨r.data_paddock_id, r.year, r.nspace, some r.data, 1⟩ := by
    intro r hr
    simp only [buildEntry]
    rw [hgrp r hr]
    simp [pyDedupBy, combine_namespace_data, hNE r hr]
  have hproj : ∀ k : String × Int × String,
      ((buildEntry config (mappedRecords rows mapping) k).normalized_paddock_id,
       (buildEntry config (mappedRecords rows mapping) k).year,
       (buildEntry config (mappedRecords rows mapping) k).nspace) = k := by
    intro k
    obtain ⟨a, b, c⟩ := k
    rfl
  constructor
  · intro p y
    have hsome : ∀ e ∈ normalize_farm_data config rows mapping,
        e.data.isSome = true := by
      intro e he
      simp only [normalize_farm_data] at he
      obtain ⟨k, hk, hke⟩ := List.mem_map.mp he
      obtain ⟨r, hr, hrk⟩ := (hkmem k).mp hk
      rw [← hke, ← hrk, hbuild r hr]
      rfl
    unfold pivotKeys
    rw [mem_pyDedupBy_self, List.filter_eq_self.mpr hsome]
    constructor
    · intro h
      obtain ⟨e, he, hpe⟩ := List.mem_map.mp h
      simp only [normalize_farm_data] at he
      obtain ⟨k, hk, hke⟩ := List.mem_map.mp he
      obtain ⟨r, hr, hrk⟩ := (hkmem k).mp hk
      refine ⟨r, hr, ?_, ?_⟩
      · rw [← hke, ← hrk, hbuild r hr] at hpe
        exact (Prod.mk.injEq _ _ _ _).mp hpe |>.1
      · rw [← hke, ← hrk, hbuild r hr] at hpe
        exact (Prod.mk.injEq _ _ _ _).mp hpe |>.2
    · rintro ⟨r, hr, hp, hy⟩
      have hk : (r.data_paddock_id, r.year, r.nspace) ∈ pyDedupBy (fun k => k)
          ((mappedRecords rows mapping).map groupKey) :=
        (hkmem _).mpr ⟨r, hr, rfl⟩
      have he : buildEntry config (mappedRecords rows mapping)
          (r.data_paddock_id, r.year, r.nspace) ∈
          normalize_farm_data config rows mapping := by
        simp only [normalize_farm_data]
        exact List.mem_map_of_mem _ hk
      have hpe : ((buildEntry config (mappedRecords rows mapping)
          (r.data_paddock_id, r.year, r.nspace)).normalized_paddock_id,
          (buildEntry config (mappedRecords rows mapping)
          (r.data_paddock_id, r.year, r.nspace)).year) = (p, y) := by
        rw [hbuild r hr]
        simp [hp, hy]
      exact hpe ▸ List.mem_map_of_mem _ he
  · intro r hr
    unfold pivotCell
    simp only [normalize_farm_data]
    rw [find?_map_key (buildEntry config (mappedRecords rows mapping))
      (fun e => (e.normalized_paddock_id, e.year, e.nspace)) _
      (fun k _ => hproj k) (nodup_pyDedupBy_id _)
      (r.data_paddock_id, r.year, r.nspace) ((hkmem _).mpr ⟨r, hr, rfl⟩)]
    rw [hbuild r hr]
    rfl

/-- Witness for C9 at a one-record farm with the identity mapping. -/
theorem normalizer_idempotent_witness :
    pivotCell (normalize_farm_data defaultETLConfig
        [(⟨"A", 1, "ns", [("k", Value.vNum 1)], (), 0⟩ : Row Unit)]
        [("A", "A")]) "A" 1 "ns" = some [("k", Value.vNum 1)] :=
  (normalizer_idempotent defaultETLConfig
      [(⟨"A", 1, "ns", [("k", Value.vNum 1)], (), 0⟩ : Row Unit)]
      [("A", "A")] (by decide) (by decide) (by decide)).2
    ⟨"A", 1, "ns", [("k", Value.vNum 1)], (), 0⟩ (by decide)

theorem buildEntry_key {G : Type} (config : ETLConfig)
    (mapped : List (String × Row G)) (k : String × Int × String) :
    ((buildEntry config mapped k).normalized_paddock_id,
     (buildEntry config mapped k).year,
     (buildEntry config mapped k).nspace) = k := by
  obtain ⟨a, b, c⟩ := k
  rfl

theorem mapped_filter_eq {G : Type} (mapping : List (String × String))
    (p0 : String) (y0 : Int) (ns0 : String) :
    ∀ rows : List (Row G),
      (mappedRecords rows mapping).filter (fun pr =>
        decide (groupKey pr = (p0, y0, ns0))) =
      (rows.filter (fun s =>
        decide ((alookup mapping s.data_paddock_id, s.year, s.nspace) =
          (some p0, y0, ns0)))).map (fun s => (p0, s)) := by
  intro rows
  induction rows with
  | nil => rfl
  | cons a t ih =>
    simp only [mappedRecords, List.filterMap_cons]
    cases ha : alookup mapping a.data_paddock_id with
    | none =>
      simp only [Option.map_none']
      rw [List.filter_cons_of_neg (by simp [ha])]
      exact ih
    | some q =>
      simp only [Option.map_some']
      by_cases hk : ((q : String), a.year, a.nspace) =
          ((p0 : String), y0, ns0)
      · have h3 := Prod.ext_iff.mp hk
        have h4 : q = p0 ∧ a.year = y0 ∧ a.nspace = ns0 :=
          ⟨h3.1, (Prod.ext_iff.mp h3.2).1, (Prod.ext_iff.mp h3.2).2⟩
        rw [List.filter_cons_of_pos (by simp [groupKey, hk]),
          List.filter_cons_of_pos (by simp [ha, h4.1, h4.2.1, h4.2.2])]
        rw [List.map_cons, h4.1]
        exact congrArg (List.cons (p0, a)) ih
      · have hpredL : ¬ (groupKey ((q, a) : String × Row G) =
            ((p0 : String), y0, ns0)) := by
          simpa [groupKey] using hk
        have hpredR : ¬ ((alookup mapping a.data_paddock_id, a.year,
            a.nspace) = ((some p0 : Option String), y0, ns0)) := by
          rw [ha]
          intro h2
          apply hk
          have h3 := Prod.ext_iff.mp h2
          exact Prod.ext_iff.mpr ⟨Option.some.inj h3.1, h3.2⟩
        rw [List.filter_cons_of_neg (by simpa using hpredL),
          List.filter_cons_of_neg (by simpa using hpredR)]
        exact ih

/-- C10: when a (mapped paddock id, year, namespace) group's combined
attribute mapping is empty — here, a single record whose data mapping has
no keys — the cell is stored as null (`json.dumps(combined) if combined
else None`, and the empty dict is falsy), not as a serialized empty
mapping; and a namespace with no source data at all also yields a null
cell, so the two are indistinguishable in the output. -/
theorem empty_data_stored_null {G : Type} (config : ETLConfig)
    (rows : List (Row G)) (mapping : List (String × String))
    (r : Row G) (p : String)
    (_hr : r ∈ rows) (hd : r.data = [])
    (_hm : alookup mapping r.data_paddock_id = some p)
    (hOnly : rows.filter (fun s =>
      decide ((alookup mapping s.data_paddock_id, s.year, s.nspace) =
        (some p, r.year, r.nspace))) = [r]) :
    pivotCell (normalize_farm_data config rows mapping)
      p r.year r.nspace = none ∧
    ∀ p0 y0 ns0, rows.filter (fun s =>
        decide ((alookup mapping s.data_paddock_id, s.year, s.nspace) =
          (some p0, y0, ns0))) = [] →
      pivotCell (normalize_farm_data config rows mapping) p0 y0 ns0 =
        none := by
  constructor
  · have hgrp : (mappedRecords rows mapping).filter (fun pr =>
        decide (groupKey pr = (p, r.year, r.nspace))) = [(p, r)] := by
      rw [mapped_filter_eq, hOnly]
      rfl
    have hpr : ((p, r) : String × Row G) ∈ mappedRecords rows mapping := by
      have hmem : ((p, r) : String × Row G) ∈
          (mappedRecords rows mapping).filter (fun pr =>
            decide (groupKey pr = (p, r.year, r.nspace))) := by
        rw [hgrp]
        exact List.mem_cons_self _ _
      exact List.mem_of_mem_filter hmem
    have hk : ((p : String), r.year, r.nspace) ∈ pyDedupBy (fun k => k)
        ((mappedRecords rows mapping).map groupKey) := by
      rw [mem_pyDedupBy_self]
      have hgk : groupKey ((p, r) : String × Row G) =
          (p, r.year, r.nspace) := rfl
      exact hgk ▸ List.mem_map_of_mem _ hpr
    have hbuildK : buildEntry config (mappedRecords rows mapping)
        (p, r.year, r.nspace) = ⟨p, r.year, r.nspace, none, 1⟩ := by
      simp only [buildEntry]
      rw [hgrp]
      simp [combine_namespace_data, pyDedupBy, hd]
    unfold pivotCell
    simp only [normalize_farm_data]
    rw [find?_map_key (buildEntry config (mappedRecords rows mapping))
      (fun e => (e.normalized_paddock_id, e.year, e.nspace)) _
      (fun k _ => buildEntry_key config (mappedRecords rows mapping) k)
      (nodup_pyDedupBy_id _) (p, r.year, r.nspace) hk]
    rw [hbuildK]
    rfl
  · intro p0 y0 ns0 hnone
    have hgrp0 : (mappedRecords rows mapping).filter (fun pr =>
        decide (groupKey pr = (p0, y0, ns0))) = [] := by
      rw [mapped_filter_eq, hnone]
      rfl
    have hk0 : ((p0 : String), y0, ns0) ∉
        (mappedRecords rows mapping).map groupKey := by
      intro hmem
      obtain ⟨pr, hpr, hprk⟩ := List.mem_map.mp hmem
      have hin : pr ∈ (mappedRecords rows mapping).filter (fun x =>
          decide (groupKey x = (p0, y0, ns0))) :=
        List.mem_filter.mpr ⟨hpr, by simp [hprk]⟩
      rw [hgrp0] at hin
      simp at hin
    unfold pivotCell
    simp only [normalize_farm_data]
    have hfind : ((pyDedupBy (fun k => k)
        ((mappedRecords rows mapping).map groupKey)).map
        (buildEntry config (mappedRecords rows mapping))).find?
        (fun e => decide ((e.normalized_paddock_id, e.year, e.nspace) =
          (p0, y0, ns0))) = none := by
      rw [List.find?_eq_none]
      intro e he
      obtain ⟨k, hkk, hke⟩ := List.mem_map.mp he
      simp only [decide_eq_true_eq]
      intro hpe
      apply hk0
      have hpk := buildEntry_key config (mappedRecords rows mapping) k
      have hek : (e.normalized_paddock_id, e.year, e.nspace) = k :=
        hke ▸ hpk
      have hkeq : k = ((p0 : String), y0, ns0) := hek.symm.trans hpe
      exact hkeq ▸ (mem_pyDedupBy_self _ _).mp hkk
    rw [hfind]
    rfl

/-- Witness for C10: a single record with empty data yields a null cell,
indistinguishable from the cell of a namespace with no data. -/
theorem empty_data_stored_null_witness :
    pivotCell (normalize_farm_data defaultETLConfig
        [(⟨"A", 1, "ns", [], (), 0⟩ : Row Unit)] [("A", "A")])
      "A" 1 "ns" = none ∧
    pivotCell (normalize_farm_data defaultETLConfig
        [(⟨"A", 1, "ns", [], (), 0⟩ : Row Unit)] [("A", "A")])
      "B" 1 "ns" = none := by
  have h := empty_data_stored_null defaultETLConfig
    [(⟨"A", 1, "ns", [], (), 0⟩ : Row Unit)] [("A", "A")]
    ⟨"A", 1, "ns", [], (), 0⟩ "A" (by decide) rfl (by decide) (by decide)
  exact ⟨h.1, h.2 "B" 1 "ns" (by decide)⟩

end PaddockETL
